import Mathlib

/-
Verification of the CorpusInterface pitch/interval datatypes
(CorpusInterface/datatypes.py and CorpusInterface/util.py).

The value domain of the concrete pitch and interval types is numeric
(integers for MIDIPitch, reals for LogFreqPitch); we model it with ℚ so
that all operations stay exact and executable.  Python's `%` on numbers
is floored modulo (`a % p = a - p * floor (a / p)`), which `qmod` mirrors.
-/

/-- Python's floored modulo on rationals: `a % p = a - p * ⌊a / p⌋`. -/
def qmod (a p : ℚ) : ℚ := a - p * ⌊a / p⌋

/-- Interval._map_to_interval_class: reduce modulo the period, then move
representatives above `period/2` down by one period (centered reduction). -/
def creduce (a p : ℚ) : ℚ :=
  let m := qmod a p
  if m > p / 2 then m - p else m

theorem qmod_nonneg (a : ℚ) {p : ℚ} (hp : 0 < p) : 0 ≤ qmod a p := by
  have h := Int.floor_le (a / p)
  have h2 : p * (⌊a / p⌋ : ℚ) ≤ p * (a / p) := by
    exact mul_le_mul_of_nonneg_left h (le_of_lt hp)
  have h3 : p * (a / p) = a := by
    field_simp
  unfold qmod
  nlinarith

theorem qmod_lt (a : ℚ) {p : ℚ} (hp : 0 < p) : qmod a p < p := by
  have h := Int.lt_floor_add_one (a / p)
  have h2 : p * (a / p) < p * ((⌊a / p⌋ : ℚ) + 1) := by
    exact mul_lt_mul_of_pos_left h hp
  have h3 : p * (a / p) = a := by
    field_simp
  unfold qmod
  nlinarith

theorem qmod_eq_self {a p : ℚ} (hp : 0 < p) (h0 : 0 ≤ a) (h1 : a < p) :
    qmod a p = a := by
  have hfl : ⌊a / p⌋ = 0 := by
    apply Int.floor_eq_zero_iff.mpr
    constructor
    · positivity
    · rw [div_lt_one hp] at *
      exact h1
  unfold qmod
  rw [hfl]
  ring

theorem qmod_add_int_mul (a : ℚ) {p : ℚ} (hp : p ≠ 0) (k : ℤ) :
    qmod (a + k * p) p = qmod a p := by
  unfold qmod
  have h : (a + k * p) / p = a / p + k := by
    field_simp
  rw [h, Int.floor_add_int]
  push_cast
  ring

theorem qmod_residue (a p : ℚ) : ∃ k : ℤ, a - qmod a p = k * p := by
  refine ⟨⌊a / p⌋, ?_⟩
  unfold qmod
  ring

theorem qmod_congr {a b p : ℚ} (hp : p ≠ 0) (h : ∃ k : ℤ, a - b = k * p) :
    qmod a p = qmod b p := by
  obtain ⟨k, hk⟩ := h
  have ha : a = b + k * p := by linarith
  rw [ha, qmod_add_int_mul b hp k]

theorem creduce_residue (a p : ℚ) : ∃ k : ℤ, a - creduce a p = k * p := by
  obtain ⟨k, hk⟩ := qmod_residue a p
  unfold creduce
  by_cases h : qmod a p > p / 2
  · refine ⟨k + 1, ?_⟩
    simp only [h, if_pos]
    push_cast
    linarith
  · refine ⟨k, ?_⟩
    simp only [h, if_neg, not_false_iff]
    linarith

theorem creduce_mem {p : ℚ} (a : ℚ) (hp : 0 < p) :
    -(p / 2) < creduce a p ∧ creduce a p ≤ p / 2 := by
  have h0 := qmod_nonneg a hp
  have h1 := qmod_lt a hp
  unfold creduce
  by_cases h : qmod a p > p / 2
  · simp only [h, if_pos]
    constructor <;> linarith
  · simp only [h, if_neg, not_false_iff]
    push_neg at h
    constructor <;> linarith

theorem creduce_of_mem {a p : ℚ} (hp : 0 < p) (hl : -(p / 2) < a)
    (hr : a ≤ p / 2) : creduce a p = a := by
  unfold creduce
  by_cases hnn : 0 ≤ a
  · rw [qmod_eq_self hp hnn (by linarith)]
    exact if_neg (by linarith : ¬a > p / 2)
  · push_neg at hnn
    have h2 : qmod a p = a + p := by
      have hc : qmod a p = qmod (a + p) p :=
        qmod_congr (ne_of_gt hp) ⟨-1, by push_cast; ring⟩
      rw [hc, qmod_eq_self hp (by linarith) (by linarith)]
    rw [h2, if_pos (by linarith : a + p > p / 2)]
    ring

theorem creduce_idem {p : ℚ} (a : ℚ) (hp : 0 < p) :
    creduce (creduce a p) p = creduce a p := by
  obtain ⟨hl, hr⟩ := creduce_mem a hp
  exact creduce_of_mem hp hl hr

theorem creduce_congr {a b p : ℚ} (hp : p ≠ 0) (h : ∃ k : ℤ, a - b = k * p) :
    creduce a p = creduce b p := by
  unfold creduce
  rw [qmod_congr hp h]

/-
Object model.  Concrete Pitch/Interval classes are identified by numeric
type tags.  An `Env` records the per-class data that lives in class
attributes in the source: the kind of the class (derived from Pitch or
from Interval), `_pitch_class_origin`, `_pitch_class_period`, and the
`_point_class`/`_vector_class` links set up by `link_interval_class`.
A runtime object wraps a type tag, a value and the class flag
(`_is_pitch_class` or `_is_interval_class` depending on the kind).
-/

/-- Python exception classes raised by the datatypes module. -/
inductive PyErr where
  | typeError
  | valueError
  | notImplementedError
  | attributeError
  deriving DecidableEq, Repr

/-- Whether a concrete class derives from Pitch or from Interval. -/
inductive Kind where
  | pitch
  | interval
  deriving DecidableEq, Repr

/-- A Pitch or Interval object: concrete type tag, wrapped value, and the
is_pitch_class / is_interval_class flag. -/
structure Obj where
  ty : ℕ
  value : ℚ
  isClass : Bool
  deriving DecidableEq, Repr

/-- Per-class static data: kind, pitch-class origin and period, and the
point-class/vector-class links. -/
structure Env where
  kind : ℕ → Kind
  origin : ℕ → Option ℚ
  period : ℕ → Option ℚ
  pointClass : ℕ → Option ℕ
  vectorClass : ℕ → Option ℕ

/-- Pitch._map_to_pitch_class: `(value - origin) % period`; raises
NotImplementedError when origin or period is unset. -/
def map_to_pitch_class (env : Env) (ty : ℕ) (v : ℚ) : Except PyErr ℚ :=
  match env.origin ty, env.period ty with
  | some o, some p => Except.ok (qmod (v - o) p)
  | _, _ => Except.error PyErr.notImplementedError

/-- Pitch.__init__ with a raw value: normalizes via _map_to_pitch_class when
is_pitch_class is true, otherwise stores the value unchanged. -/
def Pitch_init (env : Env) (ty : ℕ) (v : ℚ) (isCls : Bool) : Except PyErr Obj :=
  if isCls then
    (map_to_pitch_class env ty v).map (fun w => ⟨ty, w, true⟩)
  else
    Except.ok ⟨ty, v, false⟩

/-- Pitch.to_pitch_class: re-runs the constructor with is_pitch_class=True. -/
def to_pitch_class (env : Env) (x : Obj) : Except PyErr Obj :=
  Pitch_init env x.ty x.value true

/-- Interval._map_to_interval_class: `value %= cls._point_class._pitch_class_period`
followed by the centered shift.  Accessing the period through a missing point
class raises AttributeError; `% None` raises TypeError. -/
def map_to_interval_class (env : Env) (ty : ℕ) (v : ℚ) : Except PyErr ℚ :=
  match env.pointClass ty with
  | none => Except.error PyErr.attributeError
  | some pt =>
    match env.period pt with
    | none => Except.error PyErr.typeError
    | some per => Except.ok (creduce v per)

/-- Interval.__init__ with a raw value. -/
def Interval_init (env : Env) (ty : ℕ) (v : ℚ) (isCls : Bool) : Except PyErr Obj :=
  if isCls then
    (map_to_interval_class env ty v).map (fun w => ⟨ty, w, true⟩)
  else
    Except.ok ⟨ty, v, false⟩

/-- Interval.to_interval_class: re-runs the constructor with
is_interval_class=True. -/
def to_interval_class (env : Env) (x : Obj) : Except PyErr Obj :=
  Interval_init env x.ty x.value true

/-- Interval.__init__ when the argument is itself an Interval of the same
concrete type: self-conversion hands back the argument, its wrapped value is
extracted, and the class flag is taken from the argument (the explicit
parameter being None). -/
def Interval_init_of_interval (env : Env) (v : Obj) : Except PyErr Obj :=
  Interval_init env v.ty v.value v.isClass

/-- Pitch.__sub__ restricted to two pitch operands (the point-point branch of
Point.__sub__): build the linked interval from the value difference, require
matching class flags, and reduce to an interval class when the operands are
pitch classes. -/
def Pitch_sub (env : Env) (x y : Obj) : Except PyErr Obj :=
  match env.vectorClass x.ty with
  | none => Except.error PyErr.attributeError
  | some vc =>
    if y.ty = x.ty then
      let ret : Obj := ⟨vc, x.value - y.value, false⟩
      if x.isClass ≠ y.isClass then Except.error PyErr.typeError
      else if x.isClass then to_interval_class env ret
      else Except.ok ret
    else Except.error PyErr.typeError

/-- Pitch.__add__ with an interval of the linked vector class: build the pitch
from the value sum, require matching class flags, and map back to a pitch
class when the left operand is a pitch class. -/
def Pitch_add (env : Env) (x i : Obj) : Except PyErr Obj :=
  match env.vectorClass x.ty with
  | none => Except.error PyErr.attributeError
  | some vc =>
    if i.ty = vc then
      let ret : Obj := ⟨x.ty, x.value + i.value, false⟩
      if x.isClass ≠ i.isClass then Except.error PyErr.typeError
      else if x.isClass then to_pitch_class env ret
      else Except.ok ret
    else Except.error PyErr.typeError

/-- Interval.__sub__ for two intervals of the same concrete type. -/
def Interval_sub (env : Env) (x y : Obj) : Except PyErr Obj :=
  if y.ty = x.ty then
    let ret : Obj := ⟨x.ty, x.value - y.value, false⟩
    if x.isClass ≠ y.isClass then Except.error PyErr.typeError
    else if x.isClass then to_interval_class env ret
    else Except.ok ret
  else Except.error PyErr.typeError

/-- Interval.__add__ for two intervals of the same concrete type. -/
def Interval_add (env : Env) (x y : Obj) : Except PyErr Obj :=
  if y.ty = x.ty then
    let ret : Obj := ⟨x.ty, x.value + y.value, false⟩
    if x.isClass ≠ y.isClass then Except.error PyErr.typeError
    else if x.isClass then to_interval_class env ret
    else Except.ok ret
  else Except.error PyErr.typeError

/-- Interval.__mul__ with a scalar: multiply the wrapped value, then reduce to
an interval class when the left operand is an interval class. -/
def Interval_mul (env : Env) (x : Obj) (s : ℚ) : Except PyErr Obj :=
  let ret : Obj := ⟨x.ty, x.value * s, false⟩
  if x.isClass then to_interval_class env ret else Except.ok ret

/-- Vector.__truediv__ as inherited by the concrete Interval types:
`self.__class__(self.__mul__(1 / other))` — the product object is passed back
through the constructor, which unwraps it (self-conversion) and re-applies the
class reduction when its flag is set. -/
def Interval_truediv (env : Env) (x : Obj) (s : ℚ) : Except PyErr Obj :=
  match Interval_mul env x (1 / s) with
  | Except.error e => Except.error e
  | Except.ok inner => Interval_init_of_interval env inner

/-- Interval.to_pitch: construct the linked point class from the wrapped value
with is_pitch_class set to the interval's class flag. -/
def to_pitch (env : Env) (x : Obj) : Except PyErr Obj :=
  match env.pointClass x.ty with
  | none => Except.error PyErr.attributeError
  | some pt => Pitch_init env pt x.value x.isClass

/-- Pitch.to_interval: construct the linked vector class from the wrapped value
with is_interval_class set to the pitch's class flag. -/
def to_interval (env : Env) (x : Obj) : Except PyErr Obj :=
  match env.vectorClass x.ty with
  | none => Except.error PyErr.attributeError
  | some vc => Interval_init env vc x.value x.isClass

/-- Point.__eq__ / Vector.__eq__: same concrete class and equal wrapped value;
the class flag does not participate. -/
def Point_eq (x y : Obj) : Bool :=
  decide (x.ty = y.ty) && decide (x.value = y.value)

/-- Point.__hash__ / Vector.__hash__: `hash(self._value)` — a function of the
wrapped value only (modelled by the value itself). -/
def Point_hash (x : Obj) : ℚ := x.value

/-- Vector.__lt__ via total_ordering: compares wrapped values; a mismatched
operand class makes the comparison fail with TypeError. -/
def Vector_lt (x y : Obj) : Except PyErr Bool :=
  if x.ty = y.ty then Except.ok (decide (x.value < y.value))
  else Except.error PyErr.typeError

/-
Converter registry.  `Pitch._converters_` is a dict of dicts
`from_type -> to_type -> pipeline`; a pipeline is a list of converter
functions applied in order.  We model the two dict levels as
insertion-ordered association lists, matching Python dict iteration.
-/

/-- A conversion pipeline: the list of converter functions applied in order. -/
abbrev Pipeline := List (Obj → Obj)

/-- The inner dict `to_type -> pipeline` of Pitch._converters_. -/
abbrev InnerMap := List (ℕ × Pipeline)

/-- The outer dict `from_type -> (to_type -> pipeline)`. -/
abbrev Registry := List (ℕ × InnerMap)

/-- Lookup in the inner dict. -/
def innerGet : InnerMap → ℕ → Option Pipeline
  | [], _ => none
  | (k, v) :: rest, b => if k = b then some v else innerGet rest b

/-- Insertion-order-preserving update of the inner dict. -/
def innerSet : InnerMap → ℕ → Pipeline → InnerMap
  | [], b, pl => [(b, pl)]
  | (k, v) :: rest, b, pl =>
    if k = b then (k, pl) :: rest else (k, v) :: innerSet rest b pl

/-- Lookup of the inner dict for a from-type. -/
def outerGet : Registry → ℕ → Option InnerMap
  | [], _ => none
  | (k, inner) :: rest, a => if k = a then some inner else outerGet rest a

/-- Insertion-order-preserving update of one pipeline entry. -/
def convSet : Registry → ℕ → ℕ → Pipeline → Registry
  | [], a, b, pl => [(a, [(b, pl)])]
  | (k, inner) :: rest, a, b, pl =>
    if k = a then (k, innerSet inner b pl) :: rest
    else (k, inner) :: convSet rest a b pl

/-- Pitch.get_converter(from_type, to_type) as a partial lookup: `none`
corresponds to the NotImplementedError raised on a registry miss. -/
def get_converter (reg : Registry) (a b : ℕ) : Option Pipeline :=
  match outerGet reg a with
  | none => none
  | some inner => innerGet inner b

/-- `if from_type not in Pitch._converters_: Pitch._converters_[from_type] = {}`. -/
def regInit (reg : Registry) (a : ℕ) : Registry :=
  match outerGet reg a with
  | some _ => reg
  | none => reg ++ [(a, [])]

/-- One step of the inner loop of the closure extension in
Pitch.register_converter: prepend `conv_func` in front of the pipeline
`to_type --> another_to_type` when possible (inserted immediately), and
append `conv_func` behind the pipeline `another_from_type --> from_type`
when possible (buffered, inserted after the inner loop). -/
def extScan (fromTy toTy : ℕ) (f : Obj → Obj) (outerKey : ℕ) :
    List (ℕ × Pipeline) → Registry × Option Pipeline → Registry × Option Pipeline
  | [], st => st
  | (innerKey, pl) :: rest, (acc, buf) =>
    let acc1 :=
      if toTy = outerKey ∧ (get_converter acc fromTy innerKey).isNone then
        convSet acc fromTy innerKey (f :: pl)
      else acc
    let buf1 :=
      if innerKey = fromTy ∧ (get_converter acc1 outerKey toTy).isNone then
        some (pl ++ [f])
      else buf
    extScan fromTy toTy f outerKey rest (acc1, buf1)

/-- Process one from-type of the extension loop: scan its converter dict and
then insert the buffered appended pipeline. -/
def extOuter (fromTy toTy : ℕ) (f : Obj → Obj) (acc : Registry) (outerKey : ℕ) :
    Registry :=
  match extScan fromTy toTy f outerKey ((outerGet acc outerKey).getD []) (acc, none) with
  | (acc1, none) => acc1
  | (acc1, some pl) => convSet acc1 outerKey toTy pl

/-- The full `extend_implicit_converters` loop over all registered from-types
(the outer dict gains no new keys during the loop, so the key list is the one
at loop entry). -/
def extendAll (fromTy toTy : ℕ) (f : Obj → Obj) (reg : Registry) : Registry :=
  (reg.map Prod.fst).foldl (extOuter fromTy toTy f) reg

/-- Pitch.register_converter. -/
def register_converter (reg : Registry) (fromTy toTy : ℕ) (f : Obj → Obj)
    (overwriteExplicit : Option Bool) (overwriteImplicit : Bool)
    (extend : Bool) : Except PyErr Registry :=
  let reg1 := regInit reg fromTy
  let decision : Except PyErr Bool :=
    match get_converter reg1 fromTy toTy with
    | none => Except.ok true
    | some pl =>
      if pl.length = 1 then
        match overwriteExplicit with
        | none => Except.error PyErr.valueError
        | some b => Except.ok b
      else Except.ok overwriteImplicit
  match decision with
  | Except.error e => Except.error e
  | Except.ok setNew =>
    let reg2 := if setNew then convSet reg1 fromTy toTy [f] else reg1
    Except.ok (if extend then extendAll fromTy toTy f reg2 else reg2)

/-- Apply a conversion pipeline function by function. -/
def applyPipeline (pl : Pipeline) (x : Obj) : Obj :=
  pl.foldl (fun r f => f r) x

/-- Pitch._convert: skip self-conversion, otherwise apply the registered
pipeline, check the produced type, check flag consistency, and re-normalize
class values through to_pitch_class / to_interval_class. -/
def Pitch_convert (env : Env) (reg : Registry) (x : Obj) (toTy : ℕ) :
    Except PyErr Obj :=
  if x.ty = toTy then Except.ok x
  else
    match get_converter reg x.ty toTy with
    | none => Except.error PyErr.notImplementedError
    | some pl =>
      let ret := applyPipeline pl x
      if ret.ty ≠ toTy then Except.error PyErr.typeError
      else
        match env.kind x.ty with
        | Kind.pitch =>
          if x.isClass ≠ ret.isClass then Except.error PyErr.typeError
          else if x.isClass then to_pitch_class env ret
          else Except.ok ret
        | Kind.interval =>
          if x.isClass ≠ ret.isClass then Except.error PyErr.typeError
          else if x.isClass then to_interval_class env ret
          else Except.ok ret

/-- Pitch.convert_to: the target must derive from Pitch, then Pitch._convert. -/
def Pitch_convert_to (env : Env) (reg : Registry) (x : Obj) (toTy : ℕ) :
    Except PyErr Obj :=
  if env.kind toTy ≠ Kind.pitch then Except.error PyErr.typeError
  else Pitch_convert env reg x toTy

/-- Interval.convert_to: try the direct pipeline; on NotImplementedError fall
back to the indirect route through the equivalent pitches, correcting for the
origin difference. -/
def Interval_convert_to (env : Env) (reg : Registry) (x : Obj) (toTy : ℕ) :
    Except PyErr Obj :=
  if env.kind toTy ≠ Kind.interval then Except.error PyErr.typeError
  else
    match Pitch_convert env reg x toTy with
    | Except.ok r => Except.ok r
    | Except.error e =>
      if e ≠ PyErr.notImplementedError then Except.error e
      else
        match env.pointClass x.ty, env.pointClass toTy with
        | none, _ => Except.error PyErr.attributeError
        | some _, none => Except.error PyErr.attributeError
        | some _, some pB => do
          let sp ← to_pitch env x
          let cp ← Pitch_convert_to env reg sp pB
          let otherInterval ← to_interval env cp
          let zeroSelf ← Interval_sub env x x
          let zp ← to_pitch env zeroSelf
          let originFrom ← Pitch_convert_to env reg zp pB
          let zeroOther ← Interval_sub env otherInterval otherInterval
          let originTo ← to_pitch env zeroOther
          let originDiff ← Pitch_sub env originTo originFrom
          let out ← Interval_add env otherInterval originDiff
          if out.ty ≠ toTy then Except.error PyErr.typeError
          else if x.isClass then to_interval_class env out
          else Except.ok out

/-- Modelled from the spec (section 4.2 step 2): the same indirect route, but
with the origin difference computed as
`(zero_interval.to_pitch().convert_to(target_pitch_type)) - (target_zero_interval.to_pitch())`,
the sign stated by the spec, added to the naively converted interval. -/
def Interval_convert_via_pitch_spec (env : Env) (reg : Registry) (x : Obj)
    (toTy : ℕ) : Except PyErr Obj :=
  match env.pointClass x.ty, env.pointClass toTy with
  | none, _ => Except.error PyErr.attributeError
  | some _, none => Except.error PyErr.attributeError
  | some _, some pB => do
    let sp ← to_pitch env x
    let cp ← Pitch_convert_to env reg sp pB
    let otherInterval ← to_interval env cp
    let zeroSelf ← Interval_sub env x x
    let zp ← to_pitch env zeroSelf
    let originFrom ← Pitch_convert_to env reg zp pB
    let zeroOther ← Interval_sub env otherInterval otherInterval
    let originTo ← to_pitch env zeroOther
    let originDiff ← Pitch_sub env originFrom originTo
    Interval_add env otherInterval originDiff

/-
SpelledPitch (line-of-fifths space): the wrapped value is a 2-component
integer numpy array `[fifth_steps, octave]`.  SpelledPitch overrides
_map_to_pitch_class to zero the octave component; its
_pitch_class_period is unset.
-/

/-- The wrapped value of a SpelledPitch: `np.array([fifth_steps, octave])`. -/
structure SpelledVal where
  fifths : ℤ
  octave : ℤ
  deriving DecidableEq, Repr

/-- A SpelledPitch object. -/
structure SpelledPitchObj where
  value : SpelledVal
  isClass : Bool
  deriving DecidableEq, Repr

/-- A SpelledPitchInterval object; its constructor only accepts scalar
numbers, so the wrapped value is a 0-dimensional integer array. -/
structure SpelledIntervalObj where
  value : ℤ
  isClass : Bool
  deriving DecidableEq, Repr

/-- SpelledPitch._map_to_pitch_class: `np.array([value[0], 0])`. -/
def SpelledPitch_map_to_pitch_class (v : SpelledVal) : SpelledVal :=
  ⟨v.fifths, 0⟩

/-- SpelledPitchInterval.__init__ applied to the elementwise difference of two
SpelledPitch values: `Pitch._check_type(value, (numbers.Number,), (Interval,))`
rejects the 2-component numpy array (it is neither a numbers.Number nor an
Interval), so the constructor raises TypeError. -/
def SpelledPitchInterval_init_of_array (_diff : SpelledVal) :
    Except PyErr SpelledIntervalObj :=
  Except.error PyErr.typeError

/-- SpelledPitch.__sub__ (Pitch.__sub__ via Point.__sub__) on two
SpelledPitch operands: the point-point branch constructs
`SpelledPitchInterval(self._value - other._value)`, whose TypeError is caught
by Point.__sub__, and the vector fallback then calls
`_assert_is_vector(other)`, which raises TypeError again because `other` is a
SpelledPitch, not a SpelledPitchInterval. -/
def SpelledPitch_sub (x y : SpelledPitchObj) : Except PyErr SpelledIntervalObj :=
  match SpelledPitchInterval_init_of_array
      ⟨x.value.fifths - y.value.fifths, x.value.octave - y.value.octave⟩ with
  | Except.error _ => Except.error PyErr.typeError
  | Except.ok ret =>
    if x.isClass ≠ y.isClass then Except.error PyErr.typeError
    else if x.isClass then
      -- ret.to_interval_class(): `value %= None` raises TypeError because
      -- SpelledPitch._pitch_class_period is unset
      Except.error PyErr.typeError
    else Except.ok ret

/-- SpelledPitch.__add__ with a SpelledPitchInterval: numpy broadcasts the
scalar interval value over both components; the result is reduced to a pitch
class (octave zeroed) when the left operand is a pitch class. -/
def SpelledPitch_add (x : SpelledPitchObj) (i : SpelledIntervalObj) :
    Except PyErr SpelledPitchObj :=
  let ret : SpelledPitchObj :=
    ⟨⟨x.value.fifths + i.value, x.value.octave + i.value⟩, false⟩
  if x.isClass ≠ i.isClass then Except.error PyErr.typeError
  else if x.isClass then
    Except.ok ⟨SpelledPitch_map_to_pitch_class ret.value, true⟩
  else Except.ok ret

/-- The round trip `p1 + (p2 - p1)` on SpelledPitch objects. -/
def SpelledPitch_round_trip (p1 p2 : SpelledPitchObj) :
    Except PyErr SpelledPitchObj :=
  match SpelledPitch_sub p2 p1 with
  | Except.error e => Except.error e
  | Except.ok d => SpelledPitch_add p1 d

/-
prange (CorpusInterface/util.py).  The generator keeps yielding `running`
and stepping by `step` until one of the three break conditions fires.  We
model the loop with explicit fuel: `none` means the fuel ran out before the
loop terminated.
-/

/-- The while-loop body of prange, with fuel. -/
def prangeFuel : ℕ → ℤ → ℤ → ℤ → Bool → Bool → Option (List ℤ)
  | 0, _, _, _, _, _ => none
  | n + 1, running, stop, step, endpoint, negStep =>
    if endpoint = false ∧ running = stop then some []
    else if negStep = true ∧ running < stop then some []
    else if negStep = false ∧ stop < running then some []
    else
      match prangeFuel n (running + step) stop step endpoint negStep with
      | none => none
      | some l => some (running :: l)

/-- prange on integer arguments: `negative_step = step < (start - start)`. -/
def prange (fuel : ℕ) (start stop step : ℤ) (endpoint : Bool) :
    Option (List ℤ) :=
  prangeFuel fuel start stop step endpoint (decide (step < start - start))

/-- The arithmetic progression `running, running+step, ...` of a given
length. -/
def arithSeq : ℤ → ℤ → ℕ → List ℤ
  | _, _, 0 => []
  | r, s, n + 1 => r :: arithSeq (r + s) s n

/-- The default step of prange when `stop - start` is a Vector:
`(stop - start).__class__(1, is_interval_class=start.is_pitch_class())`. -/
def prange_default_step (env : Env) (start stop : Obj) : Except PyErr Obj :=
  match Pitch_sub env stop start with
  | Except.error e => Except.error e
  | Except.ok d => Interval_init env d.ty 1 start.isClass

/-
Concrete environment used for witnesses and counterexamples.  Tags 0 and 1
are pitch classes, tags 2 and 3 their linked interval classes; tag 0 carries
MIDIPitch's pitch-class data (_pitch_class_origin = 60,
_pitch_class_period = 12).
-/

/-- Environment with MIDIPitch-like data on tag 0 (origin 60, period 12) and a
second linked pitch/interval pair on tags 1/3. -/
def envMidi : Env where
  kind t := if t = 2 ∨ t = 3 then Kind.interval else Kind.pitch
  origin t := if t = 0 then some 60 else if t = 1 then some 0 else none
  period t := if t = 0 then some 12 else if t = 1 then some 12 else none
  pointClass t := if t = 2 then some 0 else if t = 3 then some 1 else none
  vectorClass t := if t = 0 then some 2 else if t = 1 then some 3 else none

/-- A registered pitch converter from tag 0 to tag 1 that shifts the value by
5 (an affine change of origin, like the registered MIDIPitch-to-LogFreqPitch
converter). -/
def shiftConv : Obj → Obj :=
  fun x => ⟨1, x.value + 5, x.isClass⟩

/-- Registry holding only the pitch converter 0 → 1 (no interval converter
registered). -/
def regShift : Registry := [(0, [(1, [shiftConv])])]

/-- Registry with an explicit (length-1) pipeline 5 → 6 and an implicit
(length-2) pipeline 5 → 7, for exercising the overwrite policies. -/
def regPolicies : Registry :=
  [(5, [(6, [shiftConv]), (7, [shiftConv, shiftConv])])]

/-- Environment in which every tag is a Pitch class with no class data, for
exercising the converter registry alone. -/
def envPlain : Env where
  kind _ := Kind.pitch
  origin _ := none
  period _ := none
  pointClass _ := none
  vectorClass _ := none

/-- A converter from tag 0 to tag 1 preserving value and flag. -/
def convA : Obj → Obj := fun x => ⟨1, x.value, x.isClass⟩

/-- A converter from tag 1 to tag 2 doubling the value. -/
def convB : Obj → Obj := fun x => ⟨2, x.value * 2, x.isClass⟩

/-- Decidable equality for Except results, used to evaluate the model on
concrete inputs. -/
instance exceptDecEq {ε α : Type} [DecidableEq ε] [DecidableEq α] :
    DecidableEq (Except ε α) := fun a b =>
  match a, b with
  | Except.ok x, Except.ok y =>
    if h : x = y then isTrue (by rw [h]) else isFalse (by simp [h])
  | Except.ok _, Except.error _ => isFalse (by simp)
  | Except.error _, Except.ok _ => isFalse (by simp)
  | Except.error e, Except.error e' =>
    if h : e = e' then isTrue (by rw [h]) else isFalse (by simp [h])

/-
Theorems.  First, small reduction helpers for Except and for concrete
values of qmod/creduce, then the assoc-list laws of the registry, then the
claims.
-/

theorem except_map_ok {ε α β : Type} (f : α → β) (a : α) :
    Except.map f (Except.ok a : Except ε α) = Except.ok (f a) := rfl

theorem except_map_err {ε α β : Type} (f : α → β) (e : ε) :
    Except.map f (Except.error e : Except ε α) = Except.error e := rfl

theorem except_bind_ok {ε α β : Type} (a : α) (f : α → Except ε β) :
    (Except.ok a : Except ε α) >>= f = f a := rfl

theorem except_bind_err {ε α β : Type} (e : ε) (f : α → Except ε β) :
    (Except.error e : Except ε α) >>= f = Except.error e := rfl

theorem qmod_seven : qmod 7 12 = 7 := by
  unfold qmod; norm_num

theorem qmod_neg_seven : qmod (-7) 12 = 5 := by
  unfold qmod; norm_num

theorem qmod_five : qmod 5 12 = 5 := by
  unfold qmod; norm_num

theorem qmod_zero {p : ℚ} (hp : 0 < p) : qmod 0 p = 0 :=
  qmod_eq_self hp le_rfl hp

theorem creduce_neg_seven : creduce (-7) 12 = 5 := by
  unfold creduce
  rw [qmod_neg_seven]
  norm_num

theorem creduce_five : creduce 5 12 = 5 := by
  unfold creduce
  rw [qmod_five]
  norm_num

theorem creduce_zero {p : ℚ} (hp : 0 < p) : creduce 0 p = 0 := by
  unfold creduce
  rw [qmod_zero hp]
  rw [if_neg (by linarith : ¬(0:ℚ) > p / 2)]

theorem creduce_ten : creduce 10 12 = -2 := by
  unfold creduce
  have h : qmod 10 12 = 10 := by unfold qmod; norm_num
  rw [h]
  norm_num

theorem innerGet_innerSet_self (l : InnerMap) (b : ℕ) (pl : Pipeline) :
    innerGet (innerSet l b pl) b = some pl := by
  induction l with
  | nil => simp [innerSet, innerGet]
  | cons hd rest ih =>
    obtain ⟨k, v⟩ := hd
    by_cases hk : k = b
    · subst hk
      simp [innerSet, innerGet]
    · simp [innerSet, innerGet, hk, ih]

theorem innerGet_innerSet_ne (l : InnerMap) {b b' : ℕ} (pl : Pipeline)
    (h : b' ≠ b) : innerGet (innerSet l b pl) b' = innerGet l b' := by
  induction l with
  | nil => simp [innerSet, innerGet, Ne.symm h]
  | cons hd rest ih =>
    obtain ⟨k, v⟩ := hd
    by_cases hk : k = b
    · subst hk
      simp [innerSet, innerGet, Ne.symm h]
    · by_cases hk' : k = b'
      · subst hk'
        simp [innerSet, innerGet, hk]
      · simp [innerSet, innerGet, hk, hk', ih]

theorem get_converter_convSet_self (reg : Registry) (a b : ℕ) (pl : Pipeline) :
    get_converter (convSet reg a b pl) a b = some pl := by
  induction reg with
  | nil => simp [convSet, get_converter, outerGet, innerGet]
  | cons hd rest ih =>
    obtain ⟨k, inner⟩ := hd
    by_cases hk : k = a
    · subst hk
      simp [convSet, get_converter, outerGet, innerGet_innerSet_self]
    · simpa [convSet, get_converter, outerGet, hk] using ih

theorem get_converter_convSet_ne (reg : Registry) {a b a' b' : ℕ}
    (pl : Pipeline) (h : ¬(a' = a ∧ b' = b)) :
    get_converter (convSet reg a b pl) a' b' = get_converter reg a' b' := by
  induction reg with
  | nil =>
    by_cases ha : a' = a
    · subst ha
      have hb : b' ≠ b := fun hb => h ⟨rfl, hb⟩
      simp [convSet, get_converter, outerGet, innerGet, Ne.symm hb]
    · simp [convSet, get_converter, outerGet, Ne.symm ha]
  | cons hd rest ih =>
    obtain ⟨k, inner⟩ := hd
    by_cases hk : k = a
    · subst hk
      by_cases ha : a' = k
      · subst ha
        have hb : b' ≠ b := fun hb => h ⟨rfl, hb⟩
        simp [convSet, get_converter, outerGet, innerGet_innerSet_ne _ _ hb]
      · simp [convSet, get_converter, outerGet, Ne.symm ha]
    · by_cases ha : k = a'
      · subst ha
        simp [convSet, get_converter, outerGet, hk]
      · simpa [convSet, get_converter, outerGet, hk, ha] using ih

theorem get_converter_regInit (reg : Registry) (t a b : ℕ) :
    get_converter (regInit reg t) a b = get_converter reg a b := by
  unfold regInit
  cases hob : outerGet reg t with
  | some inner => rfl
  | none =>
    induction reg with
    | nil =>
      by_cases ht : t = a
      · subst ht
        simp [get_converter, outerGet, innerGet]
      · simp [get_converter, outerGet, ht]
    | cons hd rest ih =>
      obtain ⟨k, inner⟩ := hd
      by_cases hk : k = a
      · subst hk
        simp [get_converter, outerGet]
      · have hrest : outerGet rest t = none := by
          by_cases hkt : k = t
          · subst hkt
            simp [outerGet] at hob
          · simpa [outerGet, hkt] using hob
        simpa [get_converter, outerGet, hk] using ih hrest

theorem extScan_preserves (fromTy toTy : ℕ) (f : Obj → Obj) (outerKey : ℕ)
    (A B : ℕ) (pl : Pipeline) :
    ∀ (items : List (ℕ × Pipeline)) (acc : Registry) (buf : Option Pipeline),
      get_converter acc A B = some pl →
      (outerKey = A → toTy = B → buf = none) →
      get_converter (extScan fromTy toTy f outerKey items (acc, buf)).1 A B = some pl
      ∧ (outerKey = A → toTy = B →
          (extScan fromTy toTy f outerKey items (acc, buf)).2 = none) := by
  intro items
  induction items with
  | nil =>
    intro acc buf hacc hbuf
    exact ⟨hacc, hbuf⟩
  | cons hd rest ih =>
    intro acc buf hacc hbuf
    obtain ⟨innerKey, ipl⟩ := hd
    simp only [extScan]
    set acc1 := if toTy = outerKey ∧ (get_converter acc fromTy innerKey).isNone then
        convSet acc fromTy innerKey (f :: ipl)
      else acc with hacc1def
    have hacc1 : get_converter acc1 A B = some pl := by
      rw [hacc1def]
      by_cases hc : toTy = outerKey ∧ (get_converter acc fromTy innerKey).isNone
      · rw [if_pos hc]
        have hne : ¬(A = fromTy ∧ B = innerKey) := by
          rintro ⟨rfl, rfl⟩
          rw [hacc] at hc
          simp at hc
        rw [get_converter_convSet_ne _ _ hne]
        exact hacc
      · rw [if_neg hc]
        exact hacc
    set buf1 := if innerKey = fromTy ∧ (get_converter acc1 outerKey toTy).isNone then
        some (ipl ++ [f])
      else buf with hbuf1def
    have hbuf1 : outerKey = A → toTy = B → buf1 = none := by
      rintro rfl rfl
      rw [hbuf1def]
      have hc : ¬(innerKey = fromTy ∧ (get_converter acc1 outerKey toTy).isNone) := by
        rintro ⟨-, hnone⟩
        rw [hacc1] at hnone
        simp at hnone
      rw [if_neg hc]
      exact hbuf rfl rfl
    exact ih acc1 buf1 hacc1 hbuf1

theorem extOuter_preserves {fromTy toTy : ℕ} {f : Obj → Obj} {A B : ℕ}
    {pl : Pipeline} (acc : Registry) (k : ℕ)
    (hacc : get_converter acc A B = some pl) :
    get_converter (extOuter fromTy toTy f acc k) A B = some pl := by
  have h := extScan_preserves fromTy toTy f k A B pl
      ((outerGet acc k).getD []) acc none hacc (fun _ _ => rfl)
  unfold extOuter
  cases hres : extScan fromTy toTy f k ((outerGet acc k).getD []) (acc, none) with
  | mk acc1 buf1 =>
    rw [hres] at h
    simp only at h
    cases buf1 with
    | none => exact h.1
    | some pl' =>
      have hne : ¬(A = k ∧ B = toTy) := by
        rintro ⟨rfl, rfl⟩
        have h2 := h.2 rfl rfl
        simp at h2
      rw [get_converter_convSet_ne _ _ hne]
      exact h.1

theorem extendAll_preserves {fromTy toTy : ℕ} {f : Obj → Obj} {A B : ℕ}
    {pl : Pipeline} (reg : Registry)
    (hacc : get_converter reg A B = some pl) :
    get_converter (extendAll fromTy toTy f reg) A B = some pl := by
  unfold extendAll
  generalize (reg.map Prod.fst) = keys
  induction keys generalizing reg with
  | nil => exact hacc
  | cons k rest ih =>
    simp only [List.foldl]
    exact ih _ (extOuter_preserves reg k hacc)

theorem creduce_one {p : ℚ} (hp : 2 < p) : creduce 1 p = 1 :=
  creduce_of_mem (by linarith) (by linarith) (by linarith)

/-- C10: converting a Pitch or Interval object to its own concrete type is
the identity: Pitch._convert returns the object before consulting the
registry, so Pitch.convert_to and Interval.convert_to succeed on the object's
own type with any registry, including an empty one. -/
theorem convert_to_self_identity (env : Env) (reg : Registry) (x : Obj) :
    Pitch_convert env reg x x.ty = Except.ok x
    ∧ (env.kind x.ty = Kind.pitch →
        Pitch_convert_to env reg x x.ty = Except.ok x)
    ∧ (env.kind x.ty = Kind.interval →
        Interval_convert_to env reg x x.ty = Except.ok x) := by
  have hconv : Pitch_convert env reg x x.ty = Except.ok x := by
    unfold Pitch_convert
    rw [if_pos rfl]
  refine ⟨hconv, ?_, ?_⟩
  · intro hk
    unfold Pitch_convert_to
    rw [if_neg (by simp [hk]), hconv]
  · intro hk
    unfold Interval_convert_to
    rw [if_neg (by simp [hk]), hconv]

/-- C10 witness: a pitch object of tag 0 and an interval object of tag 2
convert to their own type unchanged even with the empty registry. -/
theorem convert_to_self_identity_witness :
    Pitch_convert_to envMidi [] ⟨0, 5, false⟩ 0 = Except.ok ⟨0, 5, false⟩
    ∧ Interval_convert_to envMidi [] ⟨2, 5, true⟩ 2 = Except.ok ⟨2, 5, true⟩ := by
  constructor
  · exact (convert_to_self_identity envMidi [] ⟨0, 5, false⟩).2.1 (by rfl)
  · exact (convert_to_self_identity envMidi [] ⟨2, 5, true⟩).2.2 (by rfl)

/-- C2 (amended): for a concrete Pitch type with origin and period set
(period positive), constructing with is_pitch_class=True and to_pitch_class
store `(value - origin) mod period`, which lies in `[0, period)` (not in
`[origin, origin + period)` as the claim states). -/
theorem pitch_class_normalization (env : Env) (ty : ℕ) (v o p : ℚ)
    (ho : env.origin ty = some o) (hp : env.period ty = some p)
    (hpos : 0 < p) :
    (Pitch_init env ty v true = Except.ok ⟨ty, qmod (v - o) p, true⟩
      ∧ 0 ≤ qmod (v - o) p ∧ qmod (v - o) p < p)
    ∧ (∀ x : Obj, x.ty = ty →
        to_pitch_class env x = Except.ok ⟨ty, qmod (x.value - o) p, true⟩
        ∧ 0 ≤ qmod (x.value - o) p ∧ qmod (x.value - o) p < p) := by
  have hinit : ∀ w : ℚ,
      Pitch_init env ty w true = Except.ok ⟨ty, qmod (w - o) p, true⟩ := by
    intro w
    unfold Pitch_init map_to_pitch_class
    rw [ho, hp, if_pos rfl]
    rfl
  refine ⟨⟨hinit v, qmod_nonneg _ hpos, qmod_lt _ hpos⟩, ?_⟩
  intro x hx
  refine ⟨?_, qmod_nonneg _ hpos, qmod_lt _ hpos⟩
  unfold to_pitch_class
  rw [hx]
  exact hinit x.value

/-- C2 counterexample: MIDIPitch has origin 60 and period 12; the pitch class
built from value 67 stores 7, which does not lie in `[60, 72)`, refuting the
claimed range `[origin, origin + period)`. -/
theorem pitch_class_range_counterexample :
    Pitch_init envMidi 0 67 true = Except.ok ⟨0, 7, true⟩
    ∧ envMidi.origin 0 = some 60 ∧ envMidi.period 0 = some 12
    ∧ ¬((60 : ℚ) ≤ 7 ∧ (7 : ℚ) < 60 + 12) := by
  refine ⟨?_, rfl, rfl, by norm_num⟩
  have h : qmod (67 - 60 : ℚ) 12 = 7 := by
    norm_num [qmod_seven]
  simp [Pitch_init, map_to_pitch_class, envMidi, except_map_ok, h]

/-- C2 witness: the amended normalization applied to MIDIPitch (origin 60,
period 12) at value 67: the stored value is `(67 - 60) mod 12 = 7 ∈ [0, 12)`. -/
theorem pitch_class_normalization_witness :
    Pitch_init envMidi 0 67 true = Except.ok ⟨0, qmod (67 - 60) 12, true⟩
    ∧ 0 ≤ qmod (67 - 60 : ℚ) 12 ∧ qmod (67 - 60 : ℚ) 12 < 12 :=
  (pitch_class_normalization envMidi 0 67 60 12 rfl rfl (by norm_num)).1

/-- C5: interval-class reduction is centered: with the linked pitch type's
period `p > 0`, constructing with is_interval_class=True stores a
representative congruent to the value modulo `p` lying in `(-p/2, p/2]`;
in particular for the 12-tone interval type the classes of -7 and 5 agree. -/
theorem interval_class_centered_reduction (env : Env) (ty pt : ℕ) (v p : ℚ)
    (hpt : env.pointClass ty = some pt) (hp : env.period pt = some p)
    (hpos : 0 < p) :
    (Interval_init env ty v true = Except.ok ⟨ty, creduce v p, true⟩
      ∧ (∃ k : ℤ, v - creduce v p = k * p)
      ∧ -(p / 2) < creduce v p ∧ creduce v p ≤ p / 2)
    ∧ Interval_init envMidi 2 (-7) true = Interval_init envMidi 2 5 true := by
  constructor
  · have hm : map_to_interval_class env ty v = Except.ok (creduce v p) := by
      simp only [map_to_interval_class, hpt, hp]
    refine ⟨?_, creduce_residue v p, creduce_mem v hpos⟩
    simp [Interval_init, hm, except_map_ok]
  · simp [Interval_init, map_to_interval_class, envMidi, except_map_ok,
      creduce_neg_seven, creduce_five]

/-- C5 witness: the centered reduction at the 12-tone interval type and value
-7: the stored representative is 5, lies in `(-6, 6]`, and differs from -7 by
a multiple of 12. -/
theorem interval_class_centered_reduction_witness :
    Interval_init envMidi 2 (-7) true = Except.ok ⟨2, creduce (-7) 12, true⟩
    ∧ (∃ k : ℤ, (-7 : ℚ) - creduce (-7) 12 = k * 12)
    ∧ -(12 / 2 : ℚ) < creduce (-7) 12 ∧ creduce (-7 : ℚ) 12 ≤ 12 / 2 :=
  (interval_class_centered_reduction envMidi 2 0 (-7) 12 rfl rfl
    (by norm_num)).1

/-- C9: Point.__eq__ and Point.__hash__ depend only on the concrete type and
the wrapped value, not on the is_pitch_class flag; in particular the
MIDIPitch-like non-class pitch built from 0 equals (and hashes like) the
pitch class built from 60. -/
theorem pitch_eq_hash_ignore_class_flag :
    (∀ x y : Obj, Point_eq x y = true ↔ x.ty = y.ty ∧ x.value = y.value)
    ∧ (∀ x y : Obj, x.value = y.value → Point_hash x = Point_hash y)
    ∧ (∃ a b : Obj,
        Pitch_init envMidi 0 0 false = Except.ok a
        ∧ Pitch_init envMidi 0 60 true = Except.ok b
        ∧ a.isClass = false ∧ b.isClass = true
        ∧ Point_eq a b = true ∧ Point_hash a = Point_hash b) := by
  refine ⟨?_, ?_, ?_⟩
  · intro x y
    simp [Point_eq]
  · intro x y h
    simp [Point_hash, h]
  · refine ⟨⟨0, 0, false⟩, ⟨0, 0, true⟩, rfl, ?_, rfl, rfl, by simp [Point_eq], rfl⟩
    have h : qmod (0 : ℚ) 12 = 0 := qmod_zero (by norm_num)
    simp [Pitch_init, map_to_pitch_class, envMidi, except_map_ok, h]

/-- C9 witness: the hash clause applied at two concrete objects with equal
wrapped values but different class flags. -/
theorem pitch_eq_hash_ignore_class_flag_witness :
    Point_hash ⟨0, 3, false⟩ = Point_hash ⟨0, 3, true⟩
    ∧ Point_eq ⟨0, 3, false⟩ ⟨0, 3, true⟩ = true :=
  ⟨pitch_eq_hash_ignore_class_flag.2.1 ⟨0, 3, false⟩ ⟨0, 3, true⟩ rfl,
    (pitch_eq_hash_ignore_class_flag.1 ⟨0, 3, false⟩ ⟨0, 3, true⟩).mpr
      ⟨rfl, rfl⟩⟩

theorem creduce_neg_two : creduce (-2) 12 = -2 :=
  creduce_of_mem (by norm_num) (by norm_num) (by norm_num)

/-- C3 (amended): `v / s` re-runs the interval constructor on the product
`v * (1/s)`, so it always equals `v * (1/s)`; for a non-class vector the
wrapped value is `v.value / s`, while for an interval class the wrapped value
is the centered class representative of the quotient (not the raw quotient,
as the claim states). -/
theorem interval_truediv_behavior (env : Env) (x : Obj) (s : ℚ)
    (_hs : s ≠ 0) :
    (x.isClass = false →
      Interval_truediv env x s = Except.ok ⟨x.ty, x.value / s, false⟩
      ∧ Interval_truediv env x s = Interval_mul env x (1 / s))
    ∧ (∀ pt p, x.isClass = true → env.pointClass x.ty = some pt →
        env.period pt = some p → 0 < p →
        Interval_truediv env x s
          = Except.ok ⟨x.ty, creduce (x.value / s) p, true⟩
        ∧ Interval_truediv env x s = Interval_mul env x (1 / s)) := by
  constructor
  · intro hcls
    have hmul : Interval_mul env x (1 / s) = Except.ok ⟨x.ty, x.value * (1 / s), false⟩ := by
      simp [Interval_mul, hcls]
    have hdiv : Interval_truediv env x s = Except.ok ⟨x.ty, x.value * (1 / s), false⟩ := by
      unfold Interval_truediv
      rw [hmul]
      simp [Interval_init_of_interval, Interval_init]
    rw [mul_one_div] at hdiv
    exact ⟨hdiv, by rw [hdiv, hmul, mul_one_div]⟩
  · intro pt p hcls hpt hp hpos
    have hm : ∀ w : ℚ, map_to_interval_class env x.ty w = Except.ok (creduce w p) := by
      intro w
      simp only [map_to_interval_class, hpt, hp]
    have hmul : Interval_mul env x (1 / s)
        = Except.ok ⟨x.ty, creduce (x.value * (1 / s)) p, true⟩ := by
      simp [Interval_mul, hcls, to_interval_class, Interval_init, hm, except_map_ok]
    have hdiv : Interval_truediv env x s
        = Except.ok ⟨x.ty, creduce (creduce (x.value * (1 / s)) p) p, true⟩ := by
      unfold Interval_truediv
      rw [hmul]
      simp [Interval_init_of_interval, Interval_init, hm, except_map_ok]
    rw [creduce_idem _ hpos, mul_one_div] at hdiv
    refine ⟨hdiv, ?_⟩
    rw [hdiv, hmul, mul_one_div]

/-- C3 counterexample: for the 12-tone interval class with stored value 5,
division by 1/2 yields the centered representative -2, not the raw quotient
`5 / (1/2) = 10`. -/
theorem interval_truediv_counterexample :
    Interval_truediv envMidi ⟨2, 5, true⟩ (1 / 2) = Except.ok ⟨2, -2, true⟩
    ∧ (5 : ℚ) / (1 / 2) = 10
    ∧ (Except.ok (⟨2, -2, true⟩ : Obj) : Except PyErr Obj)
        ≠ Except.ok ⟨2, 10, true⟩ := by
  refine ⟨?_, by norm_num, fun h => by norm_num at h⟩
  have hmul : Interval_mul envMidi ⟨2, 5, true⟩ (1 / (1 / 2))
      = Except.ok ⟨2, -2, true⟩ := by
    have h1 : creduce ((5 : ℚ) * 2) 12 = -2 := by
      have h2 : (5 : ℚ) * 2 = 10 := by norm_num
      rw [h2, creduce_ten]
    simp [Interval_mul, to_interval_class, Interval_init,
      map_to_interval_class, envMidi, except_map_ok, h1]
  unfold Interval_truediv
  rw [hmul]
  simp [Interval_init_of_interval, Interval_init, map_to_interval_class,
    envMidi, except_map_ok, creduce_neg_two]

/-- C3 witness: the non-class clause of the amended statement at a concrete
interval: `MIDIPitchInterval(3) / 2` wraps the raw value `3/2` and equals
multiplication by `1/2`. -/
theorem interval_truediv_behavior_witness :
    Interval_truediv envMidi ⟨2, 3, false⟩ 2 = Except.ok ⟨2, 3 / 2, false⟩
    ∧ Interval_truediv envMidi ⟨2, 3, false⟩ 2
        = Interval_mul envMidi ⟨2, 3, false⟩ (1 / 2) :=
  (interval_truediv_behavior envMidi ⟨2, 3, false⟩ 2 (by norm_num)).1 rfl

/-- C6 (amended): for scalar-valued concrete Pitch types (MIDIPitch,
LogFreqPitch), two pitches with matching flags satisfy
`p1 + (p2 - p1) == p2`; when the flags are set this additionally uses that
the type's pitch-class origin is a whole multiple of its period (true for
origin 60 / period 12 and for origin 0).  For SpelledPitch the subtraction
itself raises TypeError (see the counterexample). -/
theorem pitch_affine_round_trip (env : Env) (ty vc : ℕ) (v1 v2 : ℚ)
    (b : Bool) (o p : ℚ)
    (hvc : env.vectorClass ty = some vc)
    (hpt : env.pointClass vc = some ty)
    (hcls : b = true →
      env.origin ty = some o ∧ env.period ty = some p ∧ 0 < p
      ∧ ∃ k : ℤ, o = k * p) :
    ∃ p1 p2 : Obj,
      Pitch_init env ty v1 b = Except.ok p1
      ∧ Pitch_init env ty v2 b = Except.ok p2
      ∧ (Pitch_sub env p2 p1) >>= (fun d => Pitch_add env p1 d)
          = Except.ok p2 := by
  cases b with
  | false =>
    refine ⟨⟨ty, v1, false⟩, ⟨ty, v2, false⟩, rfl, rfl, ?_⟩
    have hsub : Pitch_sub env ⟨ty, v2, false⟩ ⟨ty, v1, false⟩
        = Except.ok ⟨vc, v2 - v1, false⟩ := by
      simp [Pitch_sub, hvc]
    rw [hsub, except_bind_ok]
    have hadd : Pitch_add env ⟨ty, v1, false⟩ ⟨vc, v2 - v1, false⟩
        = Except.ok ⟨ty, v1 + (v2 - v1), false⟩ := by
      simp [Pitch_add, hvc]
    rw [hadd]
    have hval : v1 + (v2 - v1) = v2 := by ring
    rw [hval]
  | true =>
    obtain ⟨ho, hp, hpos, k0, hk0⟩ := hcls rfl
    have hinit : ∀ w : ℚ,
        Pitch_init env ty w true = Except.ok ⟨ty, qmod (w - o) p, true⟩ := by
      intro w
      unfold Pitch_init map_to_pitch_class
      rw [ho, hp, if_pos rfl]
      rfl
    have hmi : ∀ w : ℚ,
        map_to_interval_class env vc w = Except.ok (creduce w p) := by
      intro w
      simp only [map_to_interval_class, hpt, hp]
    refine ⟨⟨ty, qmod (v1 - o) p, true⟩, ⟨ty, qmod (v2 - o) p, true⟩,
      hinit v1, hinit v2, ?_⟩
    set w1 := qmod (v1 - o) p with hw1
    set w2 := qmod (v2 - o) p with hw2
    have hsub : Pitch_sub env ⟨ty, w2, true⟩ ⟨ty, w1, true⟩
        = Except.ok ⟨vc, creduce (w2 - w1) p, true⟩ := by
      simp [Pitch_sub, hvc, to_interval_class, Interval_init, hmi, except_map_ok]
    rw [hsub, except_bind_ok]
    have hadd : Pitch_add env ⟨ty, w1, true⟩ ⟨vc, creduce (w2 - w1) p, true⟩
        = Except.ok ⟨ty, qmod (w1 + creduce (w2 - w1) p - o) p, true⟩ := by
      simp [Pitch_add, hvc, to_pitch_class, Pitch_init, map_to_pitch_class,
        ho, hp, except_map_ok]
    rw [hadd]
    have hfinal : qmod (w1 + creduce (w2 - w1) p - o) p = w2 := by
      obtain ⟨k3, hk3⟩ := creduce_residue (w2 - w1) p
      have hcong : qmod (w1 + creduce (w2 - w1) p - o) p = qmod w2 p := by
        apply qmod_congr (ne_of_gt hpos)
        refine ⟨-(k3 + k0), ?_⟩
        push_cast
        have : w1 + creduce (w2 - w1) p - o - w2
            = -((w2 - w1 - creduce (w2 - w1) p) + o) := by ring
        rw [this, hk3, hk0]
        ring
      rw [hcong, hw2]
      exact qmod_eq_self hpos (qmod_nonneg _ hpos) (qmod_lt _ hpos)
    rw [hfinal]

/-- C6 counterexample: for SpelledPitch (a concrete Pitch type with a linked
Interval type), subtracting two pitches with matching flags raises TypeError
— the SpelledPitchInterval constructor rejects the 2-component difference
array — so `p1 + (p2 - p1) == p2` fails for p1 = SpelledPitch("C4"),
p2 = SpelledPitch("G4"). -/
theorem pitch_affine_round_trip_counterexample :
    SpelledPitch_round_trip ⟨⟨0, 4⟩, false⟩ ⟨⟨1, 4⟩, false⟩
      = Except.error PyErr.typeError
    ∧ SpelledPitch_round_trip ⟨⟨0, 4⟩, false⟩ ⟨⟨1, 4⟩, false⟩
      ≠ Except.ok ⟨⟨1, 4⟩, false⟩ := by
  refine ⟨rfl, fun h => ?_⟩
  rw [show SpelledPitch_round_trip ⟨⟨0, 4⟩, false⟩ ⟨⟨1, 4⟩, false⟩
      = Except.error PyErr.typeError from rfl] at h
  cases h

/-- C6 witness: the amended round trip at MIDIPitch-like data: pitch classes
built from 67 and 62 (origin 60, period 12, 60 = 5 * 12). -/
theorem pitch_affine_round_trip_witness :
    ∃ p1 p2 : Obj,
      Pitch_init envMidi 0 67 true = Except.ok p1
      ∧ Pitch_init envMidi 0 62 true = Except.ok p2
      ∧ (Pitch_sub envMidi p2 p1) >>= (fun d => Pitch_add envMidi p1 d)
          = Except.ok p2 :=
  pitch_affine_round_trip envMidi 0 2 67 62 true 60 12 rfl rfl
    (fun _ => ⟨rfl, rfl, by norm_num, 5, by norm_num⟩)

/-- C7: register_converter with an existing explicit (length-1) pipeline:
leaving the explicit-overwrite policy unspecified (None) raises ValueError;
False silently keeps the old pipeline; True replaces it.  With an existing
implicit (length>1) pipeline, the pipeline is replaced exactly when the
implicit-overwrite policy is true (the default), independent of the explicit
policy argument. -/
theorem register_converter_overwrite_policies (reg : Registry) (A B : ℕ)
    (f : Obj → Obj) (oi ext : Bool) (pl : Pipeline)
    (h : get_converter reg A B = some pl) :
    (pl.length = 1 →
      register_converter reg A B f none oi ext = Except.error PyErr.valueError
      ∧ (∃ r, register_converter reg A B f (some false) oi ext = Except.ok r
          ∧ get_converter r A B = some pl)
      ∧ (∃ r, register_converter reg A B f (some true) oi ext = Except.ok r
          ∧ get_converter r A B = some [f]))
    ∧ (1 < pl.length → ∀ oe : Option Bool,
      (∃ r, register_converter reg A B f oe true ext = Except.ok r
          ∧ get_converter r A B = some [f])
      ∧ (∃ r, register_converter reg A B f oe false ext = Except.ok r
          ∧ get_converter r A B = some pl)) := by
  have h1 : get_converter (regInit reg A) A B = some pl :=
    (get_converter_regInit reg A A B).trans h
  have hkeep : get_converter
      (if ext then extendAll A B f (regInit reg A) else regInit reg A) A B
      = some pl := by
    cases ext
    · simpa using h1
    · simpa using extendAll_preserves _ h1
  have hset : get_converter
      (if ext then extendAll A B f (convSet (regInit reg A) A B [f])
        else convSet (regInit reg A) A B [f]) A B = some [f] := by
    have hs := get_converter_convSet_self (regInit reg A) A B [f]
    cases ext
    · simpa using hs
    · simpa using extendAll_preserves _ hs
  constructor
  · intro hlen
    refine ⟨?_, ⟨_, ?_, hkeep⟩, ⟨_, ?_, hset⟩⟩
    · simp [register_converter, h1, hlen]
    · simp [register_converter, h1, hlen]
    · simp [register_converter, h1, hlen]
  · intro hlen oe
    have hne : ¬pl.length = 1 := by omega
    refine ⟨⟨_, ?_, hset⟩, ⟨_, ?_, hkeep⟩⟩
    · simp [register_converter, h1, hne]
    · simp [register_converter, h1, hne]

/-- C7 witness: the policies applied to a registry holding the explicit
pipeline 5 → 6 and the implicit (length-2) pipeline 5 → 7. -/
theorem register_converter_overwrite_policies_witness :
    register_converter regPolicies 5 6 shiftConv none true true
      = Except.error PyErr.valueError
    ∧ (∃ r, register_converter regPolicies 5 7 shiftConv none true true
        = Except.ok r ∧ get_converter r 5 7 = some [shiftConv]) := by
  constructor
  · exact ((register_converter_overwrite_policies regPolicies 5 6 shiftConv
      true true [shiftConv] rfl).1 rfl).1
  · exact (((register_converter_overwrite_policies regPolicies 5 7 shiftConv
      true true [shiftConv, shiftConv] rfl).2 (by norm_num)) none).1

/-- C4: registering an explicit converter A → B into the empty registry and
then an explicit converter B → C with extend_implicit_converters=true (the
default) materializes the implicit pipeline A → C as the concatenation
[f, g]; converting an A-object to C then succeeds and equals applying f then
g.  With extend_implicit_converters=false and no other route, the same
conversion fails with the NotImplementedError of a registry miss. -/
theorem converter_transitive_closure (env : Env) (A B C : ℕ)
    (f g : Obj → Obj) (hAB : A ≠ B) (hBC : B ≠ C) (hAC : A ≠ C)
    (reg1 reg2 : Registry)
    (h1 : register_converter [] A B f none true true = Except.ok reg1)
    (h2 : register_converter reg1 B C g none true true = Except.ok reg2) :
    get_converter reg2 A C = some [f, g]
    ∧ (∀ a : Obj, a.ty = A →
        env.kind C = Kind.pitch → env.kind A = Kind.pitch →
        (g (f a)).ty = C → (g (f a)).isClass = a.isClass →
        (a.isClass = true →
          to_pitch_class env (g (f a)) = Except.ok (g (f a))) →
        Pitch_convert_to env reg2 a C = Except.ok (g (f a)))
    ∧ (∀ reg2' : Registry,
        register_converter reg1 B C g none true false = Except.ok reg2' →
        ∀ a : Obj, a.ty = A → env.kind C = Kind.pitch →
        Pitch_convert_to env reg2' a C
          = Except.error PyErr.notImplementedError) := by
  have hBA : B ≠ A := Ne.symm hAB
  have hCA : C ≠ A := Ne.symm hAC
  have hCB : C ≠ B := Ne.symm hBC
  have e1 : register_converter [] A B f none true true
      = Except.ok [(A, [(B, [f])])] := by
    simp [register_converter, regInit, get_converter, outerGet, innerGet,
      convSet, innerSet, extendAll, extOuter, extScan, hAB, hBA]
  have hreg1 : reg1 = [(A, [(B, [f])])] := by
    rw [e1] at h1
    exact (Except.ok.inj h1).symm
  subst hreg1
  have e2 : register_converter [(A, [(B, [f])])] B C g none true true
      = Except.ok [(A, [(B, [f]), (C, [f, g])]), (B, [(C, [g])])] := by
    simp [register_converter, regInit, get_converter, outerGet, innerGet,
      convSet, innerSet, extendAll, extOuter, extScan, hAB, hBA, hBC, hCB,
      hAC, hCA]
  have hreg2 : reg2 = [(A, [(B, [f]), (C, [f, g])]), (B, [(C, [g])])] := by
    rw [e2] at h2
    exact (Except.ok.inj h2).symm
  subst hreg2
  have hget : get_converter
      [(A, [(B, [f]), (C, [f, g])]), (B, [(C, [g])])] A C = some [f, g] := by
    simp [get_converter, outerGet, innerGet, hBC]
  refine ⟨hget, ?_, ?_⟩
  · intro a hty hkC hkA htyret hflag hpc
    unfold Pitch_convert_to
    rw [if_neg (by simp [hkC])]
    unfold Pitch_convert
    rw [hty, if_neg hAC]
    simp only [hget]
    have happ : applyPipeline [f, g] a = g (f a) := rfl
    simp only [happ, hkA]
    rw [if_neg (by simp [htyret])]
    rw [if_neg (by simp [hflag])]
    cases hcl : a.isClass with
    | true =>
      rw [if_pos rfl]
      exact hpc hcl
    | false =>
      rw [if_neg (by simp)]
  · intro reg2' h2' a hty hkC
    have e2' : register_converter [(A, [(B, [f])])] B C g none true false
        = Except.ok [(A, [(B, [f])]), (B, [(C, [g])])] := by
      simp [register_converter, regInit, get_converter, outerGet, innerGet,
        convSet, innerSet, hAB, hBA, hBC, hCB]
    have hreg2' : reg2' = [(A, [(B, [f])]), (B, [(C, [g])])] := by
      rw [e2'] at h2'
      exact (Except.ok.inj h2').symm
    subst hreg2'
    unfold Pitch_convert_to
    rw [if_neg (by simp [hkC])]
    unfold Pitch_convert
    rw [hty, if_neg hAC]
    have hnone : get_converter [(A, [(B, [f])]), (B, [(C, [g])])] A C
        = none := by
      simp [get_converter, outerGet, innerGet, hBC]
    rw [hnone]

/-- C4 witness: converters 0 → 1 and 1 → 2 registered into the empty
registry; the closure contains 0 → 2 = [convA, convB], the composed
conversion succeeds on a concrete pitch object, and without closure
extension the conversion misses the registry. -/
theorem converter_transitive_closure_witness :
    get_converter [(0, [(1, [convA]), (2, [convA, convB])]),
        (1, [(2, [convB])])] 0 2 = some [convA, convB]
    ∧ Pitch_convert_to envPlain
        [(0, [(1, [convA]), (2, [convA, convB])]), (1, [(2, [convB])])]
        ⟨0, 7, false⟩ 2 = Except.ok (convB (convA ⟨0, 7, false⟩))
    ∧ Pitch_convert_to envPlain [(0, [(1, [convA])]), (1, [(2, [convB])])]
        ⟨0, 7, false⟩ 2 = Except.error PyErr.notImplementedError := by
  have h := converter_transitive_closure envPlain 0 1 2 convA convB
    (by decide) (by decide) (by decide)
    [(0, [(1, [convA])])]
    [(0, [(1, [convA]), (2, [convA, convB])]), (1, [(2, [convB])])]
    rfl rfl
  exact ⟨h.1,
    h.2.1 ⟨0, 7, false⟩ rfl rfl rfl rfl rfl (fun hcl => nomatch hcl),
    h.2.2 [(0, [(1, [convA])]), (1, [(2, [convB])])] rfl ⟨0, 7, false⟩ rfl rfl⟩

/-- C1 (amended): when no direct interval pipeline is registered but the
pitch conversion exists, Interval.convert_to returns the naively converted
interval (lift to pitch, convert, lift back) plus the origin difference,
where the difference is `(target_zero_interval.to_pitch())` minus
`(zero_interval.to_pitch().convert_to(target_pitch_type))` — the opposite
sign of the one in the claim. -/
theorem interval_convert_indirect (env : Env) (reg : Registry) (x : Obj)
    (toTy pA pB : ℕ) (sp cp naive z zp oF z2 oT diff out : Obj)
    (hkind : env.kind toTy = Kind.interval)
    (hmiss : Pitch_convert env reg x toTy
      = Except.error PyErr.notImplementedError)
    (hpA : env.pointClass x.ty = some pA)
    (hpB : env.pointClass toTy = some pB)
    (hsp : to_pitch env x = Except.ok sp)
    (hcp : Pitch_convert_to env reg sp pB = Except.ok cp)
    (hnaive : to_interval env cp = Except.ok naive)
    (hz : Interval_sub env x x = Except.ok z)
    (hzp : to_pitch env z = Except.ok zp)
    (hoF : Pitch_convert_to env reg zp pB = Except.ok oF)
    (hz2 : Interval_sub env naive naive = Except.ok z2)
    (hoT : to_pitch env z2 = Except.ok oT)
    (hdiff : Pitch_sub env oT oF = Except.ok diff)
    (hout : Interval_add env naive diff = Except.ok out)
    (htyout : out.ty = toTy)
    (hcls : x.isClass = true → to_interval_class env out = Except.ok out) :
    Interval_convert_to env reg x toTy = Except.ok out := by
  unfold Interval_convert_to
  rw [if_neg (by simp [hkind])]
  simp only [hmiss]
  rw [if_neg (by simp)]
  simp only [hpA, hpB, hsp, hcp, hnaive, hz, hzp, hoF, hz2, hoT, hdiff, hout,
    except_bind_ok]
  rw [if_neg (by simp [htyout])]
  cases hcl : x.isClass with
  | true =>
    rw [if_pos rfl]
    exact hcls hcl
  | false =>
    rw [if_neg (by simp)]

/-- C1 counterexample: tags 0/1 are linked pitch types of the interval types
2/3; the only registered converter is the pitch converter 0 → 1 shifting the
value by 5.  The code's indirect conversion of the interval with value 3
yields value 3 (the origin correction cancels the shift), while the spec's
formula with the stated sign yields 13. -/
theorem interval_convert_indirect_counterexample :
    get_converter regShift 2 3 = none
    ∧ Interval_convert_to envMidi regShift ⟨2, 3, false⟩ 3
        = Except.ok ⟨3, 3, false⟩
    ∧ Interval_convert_via_pitch_spec envMidi regShift ⟨2, 3, false⟩ 3
        = Except.ok ⟨3, 13, false⟩
    ∧ (Except.ok (⟨3, 3, false⟩ : Obj) : Except PyErr Obj)
        ≠ Except.ok ⟨3, 13, false⟩ := by
  refine ⟨rfl, ?_, ?_, fun h => by norm_num at h⟩
  · simp [Interval_convert_to, Pitch_convert, Pitch_convert_to, envMidi,
      regShift, get_converter, outerGet, innerGet, to_pitch, to_interval,
      Pitch_init, Interval_init, Interval_sub, Interval_add, Pitch_sub,
      applyPipeline, shiftConv, except_bind_ok, except_bind_err,
      except_map_ok]
  · have harith : (3 : ℚ) + 5 + 5 = 13 := by norm_num
    simp [Interval_convert_via_pitch_spec, Pitch_convert, Pitch_convert_to,
      envMidi, regShift, get_converter, outerGet, innerGet, to_pitch,
      to_interval, Pitch_init, Interval_init, Interval_sub, Interval_add,
      Pitch_sub, applyPipeline, shiftConv, except_bind_ok, except_bind_err,
      except_map_ok, harith]

/-- C1 witness: the amended equation instantiated on the concrete shifted
converter setup at the interval with value 4: the result is the naive
conversion 9 plus the origin difference 0 - 5. -/
theorem interval_convert_indirect_witness :
    Interval_convert_to envMidi regShift ⟨2, 4, false⟩ 3
      = Except.ok ⟨3, 4, false⟩ := by
  have hcp : Pitch_convert_to envMidi regShift ⟨0, 4, false⟩ 1
      = Except.ok ⟨1, 9, false⟩ := by
    simp [Pitch_convert_to, Pitch_convert, envMidi, regShift, get_converter,
      outerGet, innerGet, applyPipeline, shiftConv]
    norm_num
  have hz : Interval_sub envMidi ⟨2, 4, false⟩ ⟨2, 4, false⟩
      = Except.ok ⟨2, 0, false⟩ := by
    simp [Interval_sub]
  have hoF : Pitch_convert_to envMidi regShift ⟨0, 0, false⟩ 1
      = Except.ok ⟨1, 5, false⟩ := by
    simp [Pitch_convert_to, Pitch_convert, envMidi, regShift, get_converter,
      outerGet, innerGet, applyPipeline, shiftConv]
  have hz2 : Interval_sub envMidi ⟨3, 9, false⟩ ⟨3, 9, false⟩
      = Except.ok ⟨3, 0, false⟩ := by
    simp [Interval_sub]
  have hdiff : Pitch_sub envMidi ⟨1, 0, false⟩ ⟨1, 5, false⟩
      = Except.ok ⟨3, -5, false⟩ := by
    simp [Pitch_sub, envMidi]
  have hout : Interval_add envMidi ⟨3, 9, false⟩ ⟨3, -5, false⟩
      = Except.ok ⟨3, 4, false⟩ := by
    simp [Interval_add]
    norm_num
  exact interval_convert_indirect envMidi regShift ⟨2, 4, false⟩ 3 0 1
    ⟨0, 4, false⟩ ⟨1, 9, false⟩ ⟨3, 9, false⟩ ⟨2, 0, false⟩ ⟨0, 0, false⟩
    ⟨1, 5, false⟩ ⟨3, 0, false⟩ ⟨1, 0, false⟩ ⟨3, -5, false⟩ ⟨3, 4, false⟩
    rfl rfl rfl rfl rfl hcp rfl hz rfl hoF hz2 rfl hdiff hout rfl
    (fun hcl => nomatch hcl)

theorem prangeFuel_arith : ∀ (n : ℕ) (running stop step : ℤ) (ep ns : Bool)
    (l : List ℤ), prangeFuel n running stop step ep ns = some l →
    l = arithSeq running step l.length := by
  intro n
  induction n with
  | zero =>
    intro running stop step ep ns l h
    exact absurd h (by simp [prangeFuel])
  | succ n ih =>
    intro running stop step ep ns l h
    unfold prangeFuel at h
    by_cases h1 : ep = false ∧ running = stop
    · rw [if_pos h1] at h
      rw [← Option.some.inj h]
      rfl
    · rw [if_neg h1] at h
      by_cases h2 : ns = true ∧ running < stop
      · rw [if_pos h2] at h
        rw [← Option.some.inj h]
        rfl
      · rw [if_neg h2] at h
        by_cases h3 : ns = false ∧ stop < running
        · rw [if_pos h3] at h
          rw [← Option.some.inj h]
          rfl
        · rw [if_neg h3] at h
          cases hrec : prangeFuel n (running + step) stop step ep ns with
          | none =>
            rw [hrec] at h
            exact absurd h (by simp)
          | some tl =>
            rw [hrec] at h
            have hl : l = running :: tl := (Option.some.inj h).symm
            subst hl
            have htl := ih (running + step) stop step ep ns tl hrec
            simp only [List.length_cons, arithSeq]
            rw [← htl]

theorem prangeFuel_bounds : ∀ (n : ℕ) (running stop step : ℤ) (ep : Bool)
    (l : List ℤ), prangeFuel n running stop step ep false = some l →
    ∀ z ∈ l, (ep = true → z ≤ stop) ∧ (ep = false → z < stop) := by
  intro n
  induction n with
  | zero =>
    intro running stop step ep l h
    exact absurd h (by simp [prangeFuel])
  | succ n ih =>
    intro running stop step ep l h
    unfold prangeFuel at h
    by_cases h1 : ep = false ∧ running = stop
    · rw [if_pos h1] at h
      rw [← Option.some.inj h]
      intro z hz
      exact absurd hz (by simp)
    · rw [if_neg h1] at h
      rw [if_neg (by simp)] at h
      by_cases h3 : (false : Bool) = false ∧ stop < running
      · rw [if_pos h3] at h
        rw [← Option.some.inj h]
        intro z hz
        exact absurd hz (by simp)
      · rw [if_neg h3] at h
        have hle : running ≤ stop := by
          by_contra hcon
          exact h3 ⟨rfl, by omega⟩
        cases hrec : prangeFuel n (running + step) stop step ep false with
        | none =>
          rw [hrec] at h
          exact absurd h (by simp)
        | some tl =>
          rw [hrec] at h
          have hl : l = running :: tl := (Option.some.inj h).symm
          subst hl
          intro z hz
          rcases List.mem_cons.mp hz with hz1 | hz2
          · subst hz1
            constructor
            · intro _
              exact hle
            · intro hep
              have hne : z ≠ stop := by
                intro hcon
                exact h1 ⟨hep, hcon⟩
              omega
          · exact ih (running + step) stop step ep tl hrec z hz2

theorem prangeFuel_terminates (stop step : ℤ) (ep : Bool) (hstep : 0 < step) :
    ∀ (n : ℕ) (running : ℤ), stop - running < (n : ℤ) →
    (prangeFuel (n + 1) running stop step ep false).isSome = true := by
  intro n
  induction n with
  | zero =>
    intro running hb
    have hlt : stop < running := by
      simpa using hb
    unfold prangeFuel
    rw [if_neg (by rintro ⟨-, h⟩; omega)]
    rw [if_neg (by simp)]
    rw [if_pos ⟨rfl, hlt⟩]
    rfl
  | succ n ih =>
    intro running hb
    unfold prangeFuel
    by_cases h1 : ep = false ∧ running = stop
    · rw [if_pos h1]
      rfl
    · rw [if_neg h1]
      rw [if_neg (by simp)]
      by_cases h3 : (false : Bool) = false ∧ stop < running
      · rw [if_pos h3]
        rfl
      · rw [if_neg h3]
        have hb2 : stop - (running + step) < (n : ℤ) := by
          push_cast at hb ⊢
          omega
        have hrec := ih (running + step) hb2
        cases hres : prangeFuel (n + 1) (running + step) stop step ep false with
        | none =>
          rw [hres] at hrec
          exact absurd hrec (by simp)
        | some tl =>
          rfl

/-- C8: prange(0, 10, 2) yields [0, 2, 4, 6, 8] and with endpoint=True
yields [0, 2, 4, 6, 8, 10]; the default step for a Vector-valued difference
is the unit Interval with the interval-class flag of `start`; the direction
is obtained by comparing the step against the zero vector `start - start`;
and for positive step the iteration terminates, yields the arithmetic
progression from `start`, and stops strictly before `stop` (endpoint false)
or at `stop` (endpoint true). -/
theorem prange_behavior :
    prange 20 0 10 2 false = some [0, 2, 4, 6, 8]
    ∧ prange 20 0 10 2 true = some [0, 2, 4, 6, 8, 10]
    ∧ (∀ (env : Env) (start stop : Obj) (vc : ℕ),
        env.vectorClass start.ty = some vc →
        env.pointClass vc = some start.ty →
        stop.ty = start.ty → stop.isClass = start.isClass →
        (start.isClass = true → ∃ p, env.period start.ty = some p ∧ 2 < p) →
        prange_default_step env start stop
          = Except.ok ⟨vc, 1, start.isClass⟩)
    ∧ (∀ (env : Env) (start : Obj) (vc : ℕ),
        env.vectorClass start.ty = some vc →
        env.pointClass vc = some start.ty →
        (start.isClass = true → ∃ p, env.period start.ty = some p ∧ 0 < p) →
        ∃ z : Obj, Pitch_sub env start start = Except.ok z
          ∧ z.ty = vc ∧ z.value = 0
          ∧ ∀ step : Obj, step.ty = vc →
              Vector_lt step z = Except.ok (decide (step.value < 0)))
    ∧ (∀ (start stop step : ℤ) (ep : Bool), 0 < step →
        ∃ (n : ℕ) (l : List ℤ), prange n start stop step ep = some l
          ∧ l = arithSeq start step l.length
          ∧ ∀ z ∈ l, (ep = true → z ≤ stop) ∧ (ep = false → z < stop)) := by
  refine ⟨by decide, by decide, ?_, ?_, ?_⟩
  · intro env start stop vc hvc hpt hty hflag hcls
    unfold prange_default_step
    cases hcl : start.isClass with
    | false =>
      have hflag2 : stop.isClass = false := hflag.trans hcl
      have hsub : Pitch_sub env stop start
          = Except.ok ⟨vc, stop.value - start.value, false⟩ := by
        simp [Pitch_sub, hty, hvc, hflag2, hcl]
      rw [hsub]
      simp [Interval_init, hcl]
    | true =>
      obtain ⟨p, hp, hp2⟩ := hcls hcl
      have hmi : ∀ w : ℚ,
          map_to_interval_class env vc w = Except.ok (creduce w p) := by
        intro w
        simp only [map_to_interval_class, hpt, hp]
      have hflag2 : stop.isClass = true := hflag.trans hcl
      have hsub : Pitch_sub env stop start
          = Except.ok ⟨vc, creduce (stop.value - start.value) p, true⟩ := by
        simp [Pitch_sub, hty, hvc, hflag2, hcl, to_interval_class,
          Interval_init, hmi, except_map_ok]
      rw [hsub]
      simp [Interval_init, hcl, hmi, except_map_ok, creduce_one hp2]
  · intro env start vc hvc hpt hcls
    cases hcl : start.isClass with
    | false =>
      refine ⟨⟨vc, 0, false⟩, ?_, rfl, rfl, ?_⟩
      · simp [Pitch_sub, hvc, hcl]
      · intro step hstep
        simp [Vector_lt, hstep]
    | true =>
      obtain ⟨p, hp, hppos⟩ := hcls hcl
      have hmi : map_to_interval_class env vc 0 = Except.ok 0 := by
        simp only [map_to_interval_class, hpt, hp, creduce_zero hppos]
      refine ⟨⟨vc, 0, true⟩, ?_, rfl, rfl, ?_⟩
      · simp [Pitch_sub, hvc, hcl, to_interval_class, Interval_init, hmi,
          except_map_ok]
      · intro step hstep
        simp [Vector_lt, hstep]
  · intro start stop step ep hstep
    have hns : decide (step < start - start) = false := by
      simp only [sub_self]
      exact decide_eq_false (by omega)
    refine ⟨(stop - start).toNat + 2, ?_⟩
    have hb : stop - start < ((stop - start).toNat + 1 : ℤ) := by
      have h1 := Int.self_le_toNat (stop - start)
      omega
    have hterm := prangeFuel_terminates stop step ep hstep
      ((stop - start).toNat + 1) start (by push_cast at hb ⊢; omega)
    cases hres : prangeFuel ((stop - start).toNat + 1 + 1) start stop step ep
        false with
    | none =>
      rw [hres] at hterm
      exact absurd hterm (by simp)
    | some l =>
      refine ⟨l, ?_, prangeFuel_arith _ start stop step ep false l hres,
        prangeFuel_bounds _ start stop step ep l hres⟩
      unfold prange
      rw [hns]
      exact hres

/-- C8 witness: the default step at two concrete non-class pitches, the zero
vector direction test, and the positive-step characterization at
prange(0, 9, 2). -/
theorem prange_behavior_witness :
    prange_default_step envMidi ⟨0, 60, false⟩ ⟨0, 72, false⟩
      = Except.ok ⟨2, 1, false⟩
    ∧ (∃ z : Obj,
        Pitch_sub envMidi ⟨0, 60, false⟩ ⟨0, 60, false⟩ = Except.ok z
        ∧ z.ty = 2 ∧ z.value = 0
        ∧ ∀ step : Obj, step.ty = 2 →
            Vector_lt step z = Except.ok (decide (step.value < 0)))
    ∧ (∃ (n : ℕ) (l : List ℤ), prange n 0 9 2 false = some l
        ∧ l = arithSeq 0 2 l.length
        ∧ ∀ z ∈ l, ((false : Bool) = true → z ≤ 9)
            ∧ ((false : Bool) = false → z < 9)) := by
  refine ⟨?_, ?_, ?_⟩
  · exact prange_behavior.2.2.1 envMidi ⟨0, 60, false⟩ ⟨0, 72, false⟩ 2
      rfl rfl rfl rfl (fun h => nomatch h)
  · exact prange_behavior.2.2.2.1 envMidi ⟨0, 60, false⟩ 2 rfl rfl
      (fun h => nomatch h)
  · exact prange_behavior.2.2.2.2 0 9 2 false (by norm_num)
